import Mathlib

/-!
Verification of the justcall call-session orchestration core.

This file gives a shallow embedding, in Lean 4, of the Rust sources of the
justcall repository, and proves (or refutes) the specified properties of:

* the call state machine (src/core/call_state.rs),
* the settings data model and store (src/models/settings.rs,
  src/storage/settings_store.rs),
* the room-id derivation and pairing-code generation (src/core/room.rs,
  src/core/crypto.rs),
* the call controller (src-tauri/src/controllers/call_controller.rs),
* the global shortcut service (src-tauri/src/services/global_shortcuts.rs).

Pure Rust functions become Lean functions; stateful methods become explicit
state-passing functions; fallible methods return Except; external effects
(file system, OS shortcut plugin, window handles, random bytes) are passed in
as explicit arguments describing their outcomes.
-/

namespace JustCall

/-! ## Call state machine (src/core/call_state.rs) -/

/-- The four states of the call lifecycle, from the Rust enum CallState. -/
inductive CallState where
  | idle
  | connecting
  | inCall
  | disconnecting
deriving DecidableEq, Repr

namespace CallState

/-- Embedding of CallState::can_transition_to: the transition table of the
state machine, matching the Rust match expression arm for arm. -/
def can_transition_to (s : CallState) (next : CallState) : Bool :=
  match s, next with
  | idle, connecting => true
  | connecting, inCall => true
  | connecting, disconnecting => true
  | inCall, disconnecting => true
  | disconnecting, idle => true
  | _, _ => false

/-- Embedding of CallState::is_busy. -/
def is_busy (s : CallState) : Bool :=
  match s with
  | idle => false
  | _ => true

/-- Embedding of CallState::description, the human-readable state name used
in error messages (Display delegates to it). -/
def description (s : CallState) : String :=
  match s with
  | idle => "ready"
  | connecting => "connecting"
  | inCall => "in call"
  | disconnecting => "disconnecting"

end CallState

/-- C1: can_transition_to is exactly the specified transition table: it
returns true precisely on the five listed pairs, and in particular it is
false on every self-pair. -/
theorem can_transition_to_exactly_table :
    (∀ s next : CallState, s.can_transition_to next = true ↔
      ((s = .idle ∧ next = .connecting) ∨
       (s = .connecting ∧ next = .inCall) ∨
       (s = .connecting ∧ next = .disconnecting) ∨
       (s = .inCall ∧ next = .disconnecting) ∨
       (s = .disconnecting ∧ next = .idle))) ∧
    (∀ s : CallState, s.can_transition_to s = false) := by
  constructor
  · intro s next
    cases s <;> cases next <;> simp [CallState.can_transition_to]
  · intro s
    cases s <;> rfl

/-! ## Settings data model (src/models/settings.rs) -/

/-- Embedding of the Rust enum TargetType. -/
inductive TargetType where
  | person
  | group
deriving DecidableEq, Repr

/-- Embedding of the Rust enum Theme. -/
inductive Theme where
  | light
  | dark
  | system
deriving DecidableEq, Repr

/-- Embedding of the Rust struct CallDefaults. -/
structure CallDefaults where
  start_with_audio : Bool
  start_with_video : Bool
  display_name : Option String
deriving DecidableEq, Repr

/-- Embedding of CallDefaults::default. -/
def CallDefaults.default : CallDefaults :=
  { start_with_audio := true
    start_with_video := true
    display_name := none }

/-- Embedding of the Rust struct Target (field target_type is serialized
under the name type). -/
structure Target where
  id : String
  label : String
  code : String
  target_type : TargetType
  is_primary : Bool
  call_defaults : CallDefaults
  created_at : String
  notes : Option String
deriving DecidableEq, Repr

/-- Embedding of the Rust struct AppSettings. -/
structure AppSettings where
  autostart : Bool
  always_on_top : Bool
  play_join_sound : Bool
  show_notifications : Bool
  theme : Theme
deriving DecidableEq, Repr

/-- Embedding of AppSettings::default. -/
def AppSettings.default : AppSettings :=
  { autostart := false
    always_on_top := true
    play_join_sound := true
    show_notifications := true
    theme := .system }

/-- Embedding of the Rust struct KeybindDefaults (src/core/platform.rs). -/
structure KeybindDefaults where
  join_primary : String
  hangup : String
  target_hotkey_base : String
deriving DecidableEq, Repr

/-- Embedding of get_default_keybinds (src/core/platform.rs). The Rust
function selects a branch by target_os at compile time; this embedding fixes
the linux branch (identical to the windows branch). -/
def get_default_keybinds : KeybindDefaults :=
  { join_primary := "Ctrl+Shift+J"
    hangup := "Ctrl+Shift+H"
    target_hotkey_base := "Ctrl+Shift+" }

/-- Embedding of the Rust struct Keybinds; the HashMap of per-target hotkeys
is modeled as an association list. -/
structure Keybinds where
  join_primary : String
  hangup : String
  target_hotkeys : List (String × String)
  toggle_mute : Option String
  toggle_video : Option String
deriving DecidableEq, Repr

/-- Embedding of Keybinds::default, which draws from the platform defaults. -/
def Keybinds.default : Keybinds :=
  { join_primary := get_default_keybinds.join_primary
    hangup := get_default_keybinds.hangup
    target_hotkeys := []
    toggle_mute := none
    toggle_video := none }

/-- Embedding of the Rust struct Settings, the root configuration object. -/
structure Settings where
  version : Nat
  app_settings : AppSettings
  keybinds : Keybinds
  targets : List Target
deriving DecidableEq, Repr

/-- Embedding of Settings::default. -/
def Settings.default : Settings :=
  { version := 1
    app_settings := AppSettings.default
    keybinds := Keybinds.default
    targets := [] }

/-! ## Settings store (src/storage/settings_store.rs)

The store owns the in-memory Settings and a file path. Disk writes are
modeled by a Boolean flag reporting whether the method invoked save();
disk reads are modeled by passing the file contents (or absence) in. -/

/-- Embedding of the Rust struct SettingsStore. -/
structure SettingsStore where
  settings : Settings
  file_path : String
deriving DecidableEq, Repr

namespace SettingsStore

/-- Embedding of SettingsStore::new_with_path. -/
def new_with_path (path : String) : SettingsStore :=
  { settings := Settings.default, file_path := path }

/-- Embedding of SettingsStore::load_from_path. The file system read is
modeled by the argument file: none when no file exists at the path, some
contents otherwise. The external serde_json::from_str deserializer is
modeled by the argument parse; anyhow error contexts are modeled as a list
of messages, outermost first. -/
def load_from_path (parse : String → Except String Settings)
    (path : String) (file : Option String) :
    Except (List String) SettingsStore :=
  match file with
  | some contents =>
    match parse contents with
    | .ok s => .ok { settings := s, file_path := path }
    | .error e =>
      .error ["Failed to parse settings from " ++ path, e]
  | none => .ok { settings := Settings.default, file_path := path }

/-- Embedding of SettingsStore::get_target. -/
def get_target (st : SettingsStore) (id : String) : Option Target :=
  st.settings.targets.find? (fun t => t.id = id)

/-- Embedding of SettingsStore::get_primary_target. -/
def get_primary_target (st : SettingsStore) : Option Target :=
  st.settings.targets.find? (fun t => t.is_primary)

/-- Embedding of SettingsStore::add_target. The Rust method mutates the
store and then calls save() unconditionally; the returned store is the
mutated one. -/
def add_target (st : SettingsStore) (target : Target) : SettingsStore :=
  let target :=
    if st.settings.targets.isEmpty then { target with is_primary := true }
    else target
  { st with settings :=
      { st.settings with targets := st.settings.targets ++ [target] } }

end SettingsStore

/-- The assignment targets[0].is_primary = true performed by
SettingsStore::remove_target when the primary target was removed. -/
def promote_first : List Target → List Target
  | [] => []
  | first :: rest => { first with is_primary := true } :: rest

/-- Embedding of SettingsStore::remove_target. Returns the updated store,
the removed flag the Rust method returns, and whether save() was invoked. -/
def SettingsStore.remove_target (st : SettingsStore) (id : String) :
    SettingsStore × Bool × Bool :=
  let kept := st.settings.targets.filter (fun t => t.id ≠ id)
  if kept.length < st.settings.targets.length then
    let kept :=
      if ¬ kept.isEmpty ∧ ¬ (kept.any (fun t => t.is_primary)) then
        promote_first kept
      else kept
    ({ st with settings := { st.settings with targets := kept } }, true, true)
  else
    (st, false, false)

/-- One call against the target collection of the store: either add_target
with a caller-supplied Target or remove_target with an id. -/
inductive StoreOp where
  | add (t : Target)
  | remove (id : String)

/-- Apply one store operation. -/
def SettingsStore.run_op (st : SettingsStore) (op : StoreOp) : SettingsStore :=
  match op with
  | .add t => st.add_target t
  | .remove id => (st.remove_target id).1

/-- Apply a sequence of store operations in order. -/
def SettingsStore.run_ops (st : SettingsStore) (ops : List StoreOp) :
    SettingsStore :=
  ops.foldl SettingsStore.run_op st

/-- Discipline on an operation sequence: every target handed to add_target
carries is_primary = false. -/
def StoreOp.flag_ok : StoreOp → Bool
  | .add t => !t.is_primary
  | .remove _ => true

/-! ### Lemmas about the target collection -/

theorem length_filter_lt_length_iff {α : Type} (p : α → Bool) (l : List α) :
    (l.filter p).length < l.length ↔ ∃ x ∈ l, ¬ p x := by
  constructor
  · intro h
    by_contra hc
    push_neg at hc
    have heq : l.filter p = l := List.filter_eq_self.mpr (by simpa using hc)
    rw [heq] at h
    exact Nat.lt_irrefl _ h
  · rintro ⟨x, hx, hpx⟩
    induction l with
    | nil => exact absurd hx (List.not_mem_nil x)
    | cons a l ih =>
      rcases List.mem_cons.mp hx with rfl | hx₁
      · have heq : List.filter p (x :: l) = List.filter p l := by
          simp [List.filter_cons, hpx]
        rw [heq]
        have hle := (List.filter_sublist (p := p) l).length_le
        simp only [List.length_cons]
        omega
      · by_cases hpa : p a = true
        · have heq : List.filter p (a :: l) = a :: List.filter p l := by
            simp [List.filter_cons, hpa]

          rw [heq]
          simpa using Nat.succ_lt_succ (ih hx₁)
        · have heq : List.filter p (a :: l) = List.filter p l := by
            simp [List.filter_cons, hpa]
          rw [heq]
          have hle := (List.filter_sublist (p := p) l).length_le
          simp only [List.length_cons]
          omega

theorem promote_first_length (l : List Target) :
    (promote_first l).length = l.length := by
  cases l <;> rfl

theorem promote_first_ids (l : List Target) {t : Target}
    (h : t ∈ promote_first l) : ∃ u ∈ l, t.id = u.id := by
  cases l with
  | nil => cases h
  | cons first rest =>
    rcases List.mem_cons.mp h with rfl | h₁
    · exact ⟨first, List.mem_cons_self _ _, rfl⟩
    · exact ⟨t, List.mem_cons_of_mem _ h₁, rfl⟩

theorem promote_first_countP_of_none (l : List Target)
    (hzero : l.countP (fun t => t.is_primary) = 0) (hne : l ≠ []) :
    (promote_first l).countP (fun t => t.is_primary) = 1 := by
  cases l with
  | nil => exact absurd rfl hne
  | cons first rest =>
    rw [List.countP_cons] at hzero
    have hrest : rest.countP (fun t => t.is_primary) = 0 :=
      Nat.eq_zero_of_add_eq_zero_right hzero
    simp [promote_first, List.countP_cons, hrest]

theorem promote_first_head_primary (l : List Target) {t : Target}
    (h : (promote_first l).head? = some t) : t.is_primary = true := by
  cases l with
  | nil => cases h
  | cons first rest =>
    simp only [promote_first, List.head?_cons, Option.some.injEq] at h
    rw [← h]

/-- At most one primary target in a collection containing a primary target
with some id means: every primary target of the collection has that id. -/
theorem primary_unique_id {l : List Target} {t₀ : Target}
    (hone : l.countP (fun t => t.is_primary) ≤ 1)
    (ht₀ : t₀ ∈ l) (hp₀ : t₀.is_primary = true) :
    ∀ t ∈ l, t.is_primary = true → t = t₀ := by
  intro t ht hp
  by_contra hne
  have hmem₀ : t₀ ∈ l.filter (fun t => t.is_primary) :=
    List.mem_filter.mpr ⟨ht₀, hp₀⟩
  have hmem : t ∈ l.filter (fun t => t.is_primary) :=
    List.mem_filter.mpr ⟨ht, hp⟩
  have hmem' : t ∈ (l.filter (fun t => t.is_primary)).erase t₀ :=
    (List.mem_erase_of_ne hne).mpr hmem
  have hlen := List.length_erase_of_mem hmem₀
  have hpos : 0 < ((l.filter (fun t => t.is_primary)).erase t₀).length :=
    List.length_pos.mpr (List.ne_nil_of_mem hmem')
  have hcount := List.countP_eq_length_filter (fun t => t.is_primary) l
  omega

/-! ### C2: the exactly-one-primary invariant -/

/-- The invariant candidate of C2 on a store: either no targets, or exactly
one primary target. -/
def primary_ok (st : SettingsStore) : Prop :=
  st.settings.targets = [] ∨
    st.settings.targets.countP (fun t => t.is_primary) = 1

theorem add_target_primary_ok (st : SettingsStore) (t : Target)
    (hst : primary_ok st) (ht : t.is_primary = false) :
    primary_ok (st.add_target t) := by
  rcases hst with hnil | hone
  · right
    simp [SettingsStore.add_target, hnil, List.countP_cons]
  · right
    have hne : st.settings.targets ≠ [] := by
      intro h
      rw [h, List.countP_nil] at hone
      exact Nat.zero_ne_one hone
    have hne' : st.settings.targets.isEmpty = false := by
      cases h : st.settings.targets with
      | nil => exact absurd h hne
      | cons a l => rfl
    simp only [SettingsStore.add_target, hne', if_neg]
    simp [List.countP_append, hone, List.countP_cons, ht]

theorem remove_target_primary_ok (st : SettingsStore) (id : String)
    (hst : primary_ok st) : primary_ok (st.remove_target id).1 := by
  rcases hst with hnil | hone
  · simp [SettingsStore.remove_target, hnil, primary_ok]
  · simp only [SettingsStore.remove_target]
    split
    case isFalse h => exact Or.inr hone
    case isTrue h =>
      set kept := st.settings.targets.filter (fun t => t.id ≠ id) with hkept
      have hle : kept.countP (fun t => t.is_primary) ≤ 1 := by
        rw [← hone]
        exact (List.filter_sublist _).countP_le _
      split
      case isTrue hguard =>
        obtain ⟨hne, hnoprim⟩ := hguard
        have hkne : kept ≠ [] := by
          intro hk
          rw [hk] at hne
          exact hne rfl
        have hzero : kept.countP (fun t => t.is_primary) = 0 := by
          rw [List.countP_eq_zero]
          intro a ha
          intro hpa
          exact hnoprim (List.any_eq_true.mpr ⟨a, ha, hpa⟩)
        exact Or.inr (promote_first_countP_of_none kept hzero hkne)
      case isFalse hguard =>
        by_cases hk : kept = []
        · exact Or.inl hk
        · right
          rcases not_and_or.mp hguard with hne | hprim
          · exfalso
            apply hne
            intro habs
            exact hk (List.isEmpty_iff.mp habs)
          · rw [not_not] at hprim
            obtain ⟨a, ha, hpa⟩ := List.any_eq_true.mp hprim
            have hpos : 0 < kept.countP (fun t => t.is_primary) :=
              List.countP_pos_iff.mpr ⟨a, ha, hpa⟩
            show kept.countP (fun t => t.is_primary) = 1
            omega

theorem run_ops_primary_ok (ops : List StoreOp) (st : SettingsStore)
    (hst : primary_ok st) (hops : ∀ op ∈ ops, op.flag_ok = true) :
    primary_ok (st.run_ops ops) := by
  induction ops generalizing st with
  | nil => exact hst
  | cons op ops ih =>
    have hop := hops op (List.mem_cons_self _ _)
    have hops' : ∀ o ∈ ops, o.flag_ok = true := fun o ho =>
      hops o (List.mem_cons_of_mem _ ho)
    cases op with
    | add t =>
      have ht : t.is_primary = false := by
        simpa [StoreOp.flag_ok] using hop
      exact ih (st.add_target t) (add_target_primary_ok st t hst ht) hops'
    | remove id =>
      exact ih _ (remove_target_primary_ok st id hst) hops'

/-- Example targets used in concrete scenarios and counterexamples. -/
def mkTarget (id : String) (prim : Bool) : Target :=
  { id := id
    label := id
    code := "code-" ++ id
    target_type := .person
    is_primary := prim
    call_defaults := CallDefaults.default
    created_at := "2024-01-01T00:00:00Z"
    notes := none }

/-- C2 counterexample: starting from an empty store, add target A with
is_primary = false (the store forces it primary), then add target B with the
caller-supplied flag is_primary = true; the collection is non-empty but two
targets carry is_primary = true, so the claimed invariant fails for
arbitrary caller-supplied flags. -/
theorem run_ops_two_primaries :
    ((SettingsStore.new_with_path "settings.json").run_ops
        [StoreOp.add (mkTarget "A" false), StoreOp.add (mkTarget "B" true)]
      ).settings.targets ≠ [] ∧
    ((SettingsStore.new_with_path "settings.json").run_ops
        [StoreOp.add (mkTarget "A" false), StoreOp.add (mkTarget "B" true)]
      ).settings.targets.countP (fun t => t.is_primary) = 2 := by
  constructor
  · decide
  · decide

/-- C2 (amended): for every sequence of add_target and remove_target calls
starting from a store with an empty target collection, in which every Target
passed to add_target has is_primary = false, if the resulting collection is
non-empty then exactly one target has is_primary = true. -/
theorem run_ops_exactly_one_primary (path : String) (ops : List StoreOp)
    (hops : ∀ op ∈ ops, op.flag_ok = true)
    (hne : ((SettingsStore.new_with_path path).run_ops ops).settings.targets
      ≠ []) :
    ((SettingsStore.new_with_path path).run_ops ops).settings.targets.countP
      (fun t => t.is_primary) = 1 := by
  have hinit : primary_ok (SettingsStore.new_with_path path) :=
    Or.inl rfl
  rcases run_ops_primary_ok ops _ hinit hops with hnil | hone
  · exact absurd hnil hne
  · exact hone

/-- C2 witness: the amended invariant evaluated on the concrete sequence
add A, add B, remove A. -/
theorem run_ops_exactly_one_primary_witness :
    (∀ op ∈ [StoreOp.add (mkTarget "A" false),
             StoreOp.add (mkTarget "B" false),
             StoreOp.remove "A"], op.flag_ok = true) ∧
    ((SettingsStore.new_with_path "p").run_ops
        [StoreOp.add (mkTarget "A" false), StoreOp.add (mkTarget "B" false),
         StoreOp.remove "A"]).settings.targets ≠ [] ∧
    ((SettingsStore.new_with_path "p").run_ops
        [StoreOp.add (mkTarget "A" false), StoreOp.add (mkTarget "B" false),
         StoreOp.remove "A"]).settings.targets.countP
      (fun t => t.is_primary) = 1 :=
  ⟨by decide, by decide,
    run_ops_exactly_one_primary "p" _ (by decide) (by decide)⟩

/-! ### C7: remove_target -/

theorem removal_occurred_iff (st : SettingsStore) (id : String) :
    (st.settings.targets.filter (fun t => t.id ≠ id)).length <
      st.settings.targets.length ↔
    ∃ t ∈ st.settings.targets, t.id = id := by
  rw [length_filter_lt_length_iff]
  constructor
  · rintro ⟨x, hx, hpx⟩
    refine ⟨x, hx, ?_⟩
    simpa using hpx
  · rintro ⟨x, hx, hpx⟩
    exact ⟨x, hx, by simp [hpx]⟩

/-- A store whose target collection is reachable through the public API
(add A, then C with flag false, then B with caller flag true) and holds two
primary targets. -/
def storeACB : SettingsStore :=
  { settings := { Settings.default with
      targets := [mkTarget "A" true, mkTarget "C" false, mkTarget "B" true] }
    file_path := "p" }

/-- C7 counterexample: in storeACB the target with id A is primary; removing
it reports removed = true and leaves other targets, yet the first remaining
target is C with is_primary = false — no promotion happens because another
primary target (B) survives, so the claimed universal promotion rule fails. -/
theorem remove_target_promotion_fails :
    (storeACB.settings.targets.find? (fun t => t.id = "A")).map
        (fun t => t.is_primary) = some true ∧
    (storeACB.remove_target "A").2.1 = true ∧
    (storeACB.remove_target "A").1.settings.targets ≠ [] ∧
    ((storeACB.remove_target "A").1.settings.targets.head?.map
        (fun t => t.is_primary)) = some false := by
  refine ⟨?_, ?_, ?_, ?_⟩ <;> decide

/-- C7 (amended): for every store holding at most one primary target and
every id, remove_target returns true iff a target with that id was present,
removes every target with that id, promotes the first remaining target to
primary whenever the removed target was primary and targets remain, and
invokes save exactly when a removal occurred. -/
theorem remove_target_spec (st : SettingsStore) (id : String)
    (hone : st.settings.targets.countP (fun t => t.is_primary) ≤ 1) :
    ((st.remove_target id).2.1 = true ↔
        ∃ t ∈ st.settings.targets, t.id = id) ∧
    (∀ t ∈ (st.remove_target id).1.settings.targets, t.id ≠ id) ∧
    ((∃ t ∈ st.settings.targets, t.id = id ∧ t.is_primary = true) →
      (st.remove_target id).1.settings.targets ≠ [] →
      ∀ t, (st.remove_target id).1.settings.targets.head? = some t →
        t.is_primary = true) ∧
    ((st.remove_target id).2.2 = (st.remove_target id).2.1) := by
  by_cases hrem : (st.settings.targets.filter (fun t => t.id ≠ id)).length <
      st.settings.targets.length
  · -- a removal occurs
    have hres : st.remove_target id =
        ({ st with settings := { st.settings with targets :=
            (if ¬ (st.settings.targets.filter (fun t => t.id ≠ id)).isEmpty ∧
               ¬ ((st.settings.targets.filter (fun t => t.id ≠ id)).any
                   (fun t => t.is_primary)) then
              promote_first (st.settings.targets.filter (fun t => t.id ≠ id))
            else st.settings.targets.filter (fun t => t.id ≠ id)) } },
          true, true) := by
      simp only [SettingsStore.remove_target]
      rw [if_pos hrem]
    refine ⟨?_, ?_, ?_, ?_⟩
    · rw [hres]
      simpa using (removal_occurred_iff st id).mp hrem
    · rw [hres]
      intro t ht
      simp only at ht
      have hkept : ∀ u ∈ st.settings.targets.filter (fun t => t.id ≠ id),
          u.id ≠ id := by
        intro u hu
        have := (List.mem_filter.mp hu).2
        simpa using this
      by_cases hguard :
          ¬ (st.settings.targets.filter (fun t => t.id ≠ id)).isEmpty ∧
          ¬ ((st.settings.targets.filter (fun t => t.id ≠ id)).any
              (fun t => t.is_primary))
      · rw [if_pos hguard] at ht
        obtain ⟨u, hu, hid⟩ := promote_first_ids _ ht
        rw [hid]
        exact hkept u hu
      · rw [if_neg hguard] at ht
        exact hkept t ht
    · rintro ⟨t₀, ht₀, hid₀, hp₀⟩ hne t ht
      rw [hres] at hne ht
      simp only at hne ht
      have hguard :
          ¬ (st.settings.targets.filter (fun t => t.id ≠ id)).isEmpty ∧
          ¬ ((st.settings.targets.filter (fun t => t.id ≠ id)).any
              (fun t => t.is_primary)) := by
        constructor
        · intro habs
          have hkeptnil := List.isEmpty_iff.mp habs
          rw [if_neg] at hne
          · exact hne hkeptnil
          · intro hand
            exact hand.1 habs
        · intro hany
          obtain ⟨a, ha, hpa⟩ := List.any_eq_true.mp hany
          have hamem : a ∈ st.settings.targets :=
            (List.mem_filter.mp ha).1
          have haid : a.id ≠ id := by
            have := (List.mem_filter.mp ha).2
            simpa using this
          have := primary_unique_id hone ht₀ hp₀ a hamem hpa
          rw [this] at haid
          exact haid hid₀
      rw [if_pos hguard] at ht
      exact promote_first_head_primary _ ht
    · rw [hres]
  · -- no removal
    have hres : st.remove_target id = (st, false, false) := by
      simp only [SettingsStore.remove_target]
      rw [if_neg hrem]
    have hnone : ¬ ∃ t ∈ st.settings.targets, t.id = id := fun habs =>
      hrem ((removal_occurred_iff st id).mpr habs)
    refine ⟨?_, ?_, ?_, ?_⟩
    · rw [hres]
      simpa using hnone
    · rw [hres]
      intro t ht hid
      exact hnone ⟨t, ht, hid⟩
    · rintro ⟨t₀, ht₀, hid₀, _⟩
      exact absurd ⟨t₀, ht₀, hid₀⟩ hnone
    · rw [hres]

/-- The store built by the scenario of C7: add target A (forced primary),
then target B with flag false. -/
def storeAB : SettingsStore :=
  (SettingsStore.new_with_path "p").run_ops
    [StoreOp.add (mkTarget "A" false), StoreOp.add (mkTarget "B" false)]

/-- C7 witness: the amended statement evaluated on the scenario store; after
removing A, the remaining collection is exactly B promoted to primary. -/
theorem remove_target_spec_witness :
    storeAB.settings.targets.countP (fun t => t.is_primary) ≤ 1 ∧
    (∀ t, (storeAB.remove_target "A").1.settings.targets.head? = some t →
      t.is_primary = true) ∧
    (storeAB.remove_target "A").1.settings.targets = [mkTarget "B" true] :=
  ⟨by decide,
   fun t ht =>
     (remove_target_spec storeAB "A" (by decide)).2.2.1
       (by decide) (by decide) t ht,
   by decide⟩

/-! ### C8: load_from_path -/

/-- C8: when the file exists but its contents fail to deserialize, the load
surfaces an error whose context mentions the parse failure and carries the
underlying message; when no file exists, the load succeeds with the default
Settings in memory. -/
theorem load_from_path_spec (parse : String → Except String Settings)
    (path contents e : String) (hfail : parse contents = .error e) :
    SettingsStore.load_from_path parse path (some contents) =
      .error ["Failed to parse settings from " ++ path, e] ∧
    SettingsStore.load_from_path parse path none =
      .ok { settings := Settings.default, file_path := path } := by
  constructor
  · simp [SettingsStore.load_from_path, hfail]
  · rfl

/-- C8 witness: the load behavior at a concrete failing parser and path. -/
theorem load_from_path_spec_witness :
    (fun _ : String => (Except.error "expected value" : Except String Settings))
        "not json" = .error "expected value" ∧
    SettingsStore.load_from_path
        (fun _ => .error "expected value") "cfg/settings.json"
        (some "not json") =
      .error ["Failed to parse settings from cfg/settings.json",
              "expected value"] ∧
    SettingsStore.load_from_path
        (fun _ => .error "expected value") "cfg/settings.json" none =
      .ok { settings := Settings.default, file_path := "cfg/settings.json" } :=
  ⟨rfl,
   (load_from_path_spec (fun _ => .error "expected value")
      "cfg/settings.json" "not json" "expected value" rfl).1,
   (load_from_path_spec (fun _ => .error "expected value")
      "cfg/settings.json" "not json" "expected value" rfl).2⟩

/-! ## Call controller (src-tauri/src/controllers/call_controller.rs)

The controller holds the call state and the current target id, each behind a
Mutex in Rust. The Tauri app handle is used only to emit call-state-changed
events; each method below therefore returns, besides its Rust return value,
the controller state afterwards and the list of emitted event payloads. The
conference window collaborator is modeled by passing in the outcome of its
open call. -/

/-- The state owned by the Rust struct CallController. -/
structure CallController where
  state : CallState
  current_target : Option String
deriving DecidableEq, Repr

/-- Embedding of CallController::new: starts Idle with no target. -/
def CallController.new : CallController :=
  { state := .idle, current_target := none }

/-- Embedding of CallController::join. The argument open_result is the
outcome of the ConferenceWindow::open call made after the transition. -/
def CallController.join (c : CallController) (target_id : String)
    (open_result : Except String Unit) :
    Except String Unit × CallController × List CallState :=
  if ¬ c.state.can_transition_to .connecting then
    (.error ("Cannot join while " ++ c.state.description), c, [])
  else
    let c := { state := CallState.connecting,
               current_target := some target_id }
    match open_result with
    | .ok _ => (.ok (), c, [CallState.connecting])
    | .error e => (.error e, c, [CallState.connecting])

/-- Embedding of CallController::hangup (ConferenceWindow::close returns
nothing and is not modeled). -/
def CallController.hangup (c : CallController) :
    Except String Unit × CallController × List CallState :=
  if c.state = .idle then
    (.ok (), c, [])
  else if ¬ c.state.can_transition_to .disconnecting then
    (.error ("Cannot hangup while " ++ c.state.description), c, [])
  else
    (.ok (), { state := .idle, current_target := none },
      [CallState.disconnecting, CallState.idle])

/-- Embedding of CallController::on_conference_joined. -/
def CallController.on_conference_joined (c : CallController) :
    CallController × List CallState :=
  if c.state = .connecting then
    ({ c with state := .inCall }, [CallState.inCall])
  else (c, [])

/-- Embedding of CallController::on_conference_left. -/
def CallController.on_conference_left (c : CallController) :
    CallController × List CallState :=
  if c.state ≠ .idle then
    ({ state := .idle, current_target := none }, [CallState.idle])
  else (c, [])

/-- One public controller operation (besides new). -/
inductive CtrlOp where
  | join (target_id : String) (open_result : Except String Unit)
  | hangup
  | conference_joined
  | conference_left

/-- Apply one controller operation, keeping only the controller state. -/
def CallController.run_ctrl_op (c : CallController) (op : CtrlOp) :
    CallController :=
  match op with
  | .join tid r => (c.join tid r).2.1
  | .hangup => c.hangup.2.1
  | .conference_joined => c.on_conference_joined.1
  | .conference_left => c.on_conference_left.1

/-- Apply a sequence of controller operations in order. -/
def CallController.run_ctrl_ops (c : CallController) (ops : List CtrlOp) :
    CallController :=
  ops.foldl CallController.run_ctrl_op c

/-! ### C3: join -/

/-- C3 counterexample: a fresh controller is Idle and the fresh default
store holds no target with id ghost, yet join on that id returns Ok and
moves the state to Connecting, recording the unknown id as current target —
CallController::join never consults the configuration store. -/
theorem join_unknown_target_succeeds :
    (SettingsStore.new_with_path "p").get_target "ghost" = none ∧
    (CallController.new.join "ghost" (.ok ())).1 = .ok () ∧
    (CallController.new.join "ghost" (.ok ())).2.1.state = .connecting ∧
    (CallController.new.join "ghost" (.ok ())).2.1.current_target =
      some "ghost" :=
  ⟨rfl, rfl, rfl, rfl⟩

/-- C3 (amended): join returns an error describing the current state and
leaves the controller unchanged (emitting nothing) whenever the call state
is not Idle; from Idle it performs no configuration-store lookup, recording
whatever target id it is given and transitioning to Connecting. -/
theorem join_spec (c : CallController) (target_id : String)
    (open_result : Except String Unit) :
    (c.state ≠ .idle →
      c.join target_id open_result =
        (.error ("Cannot join while " ++ c.state.description), c, [])) ∧
    (c.state = .idle →
      (c.join target_id open_result).2.1 =
        { state := .connecting, current_target := some target_id } ∧
      (c.join target_id open_result).2.2 = [CallState.connecting]) := by
  constructor
  · intro h
    have hcan : c.state.can_transition_to .connecting = false := by
      cases hs : c.state
      · exact absurd hs h
      · rfl
      · rfl
      · rfl
    simp [CallController.join, hcan]
  · intro h
    have hcan : c.state.can_transition_to .connecting = true := by
      rw [h]
      rfl
    cases open_result <;> simp [CallController.join, hcan]

/-- C3 witness: the amended statement evaluated at a controller in the
InCall state and at a fresh Idle controller. -/
theorem join_spec_witness :
    (({ state := CallState.inCall, current_target := some "A" } :
        CallController).join "B" (.ok ()) =
      (.error "Cannot join while in call",
        { state := CallState.inCall, current_target := some "A" }, [])) ∧
    (CallController.new.join "B" (.ok ())).2.1 =
      { state := .connecting, current_target := some "B" } :=
  ⟨(join_spec { state := .inCall, current_target := some "A" } "B"
      (.ok ())).1 (by decide),
   ((join_spec CallController.new "B" (.ok ())).2 rfl).1⟩

/-! ### C5: hangup -/

/-- C5: hangup from Idle returns Ok, leaves the controller unchanged and
emits nothing; from Connecting or InCall it returns Ok, ends Idle with the
current target cleared, and emits one notification per transition, first
Disconnecting then Idle. -/
theorem hangup_spec (c : CallController) :
    (c.state = .idle → c.hangup = (.ok (), c, [])) ∧
    (c.state = .connecting ∨ c.state = .inCall →
      c.hangup = (.ok (), { state := .idle, current_target := none },
        [CallState.disconnecting, CallState.idle])) := by
  constructor
  · intro h
    simp [CallController.hangup, h]
  · intro h
    rcases h with h | h <;>
      simp [CallController.hangup, h, CallState.can_transition_to]

/-- C5 witness: hangup evaluated at an Idle controller and at an InCall
controller with an active target. -/
theorem hangup_spec_witness :
    CallController.new.hangup = (.ok (), CallController.new, []) ∧
    ({ state := CallState.inCall, current_target := some "B" } :
        CallController).hangup =
      (.ok (), { state := .idle, current_target := none },
        [CallState.disconnecting, CallState.idle]) :=
  ⟨(hangup_spec CallController.new).1 rfl,
   (hangup_spec { state := .inCall, current_target := some "B" }).2
     (Or.inr rfl)⟩

/-! ### C10: Idle implies no current target -/

/-- The implicit controller invariant of C10. -/
def idle_no_target (c : CallController) : Prop :=
  c.state = .idle → c.current_target = none

theorem run_ctrl_op_idle_no_target (c : CallController) (op : CtrlOp)
    (h : idle_no_target c) : idle_no_target (c.run_ctrl_op op) := by
  cases op with
  | join tid r =>
    simp only [CallController.run_ctrl_op, CallController.join]
    split
    case isTrue => exact h
    case isFalse =>
      cases r <;> exact fun habs => CallState.noConfusion habs
  | hangup =>
    simp only [CallController.run_ctrl_op, CallController.hangup]
    split
    case isTrue => exact h
    case isFalse =>
      split
      case isTrue => exact h
      case isFalse => exact fun _ => rfl
  | conference_joined =>
    simp only [CallController.run_ctrl_op, CallController.on_conference_joined]
    split
    case isTrue => exact fun habs => CallState.noConfusion habs
    case isFalse => exact h
  | conference_left =>
    simp only [CallController.run_ctrl_op, CallController.on_conference_left]
    split
    case isTrue => exact fun _ => rfl
    case isFalse => exact h

theorem run_ctrl_ops_preserves_idle_no_target (ops : List CtrlOp) :
    ∀ c : CallController, idle_no_target c →
      idle_no_target (c.run_ctrl_ops ops) := by
  induction ops with
  | nil => exact fun c hc => hc
  | cons op ops ih =>
    intro c hc
    exact ih (c.run_ctrl_op op) (run_ctrl_op_idle_no_target c op hc)

/-- C10: after any sequence of public operations (join, hangup,
on_conference_joined, on_conference_left) starting from a fresh controller,
whenever the call state is Idle the current target is None. -/
theorem run_ctrl_ops_idle_no_target (ops : List CtrlOp)
    (h : (CallController.new.run_ctrl_ops ops).state = .idle) :
    (CallController.new.run_ctrl_ops ops).current_target = none :=
  run_ctrl_ops_preserves_idle_no_target ops CallController.new
    (fun _ => rfl) h

/-- C10 witness: the invariant evaluated after a concrete join and hangup
sequence ending Idle. -/
theorem run_ctrl_ops_idle_no_target_witness :
    (CallController.new.run_ctrl_ops
        [CtrlOp.join "A" (.ok ()), CtrlOp.conference_joined,
         CtrlOp.hangup]).state = .idle ∧
    (CallController.new.run_ctrl_ops
        [CtrlOp.join "A" (.ok ()), CtrlOp.conference_joined,
         CtrlOp.hangup]).current_target = none :=
  ⟨rfl, run_ctrl_ops_idle_no_target
    [CtrlOp.join "A" (.ok ()), CtrlOp.conference_joined, CtrlOp.hangup] rfl⟩

/-! ## Global shortcut service (src-tauri/src/services/global_shortcuts.rs)

The service owns a map from hotkey strings to actions, modeled as an
association list. The external facilities it calls — the hotkey-string
parser and the register/unregister calls of the OS shortcut plugin — are
modeled by an environment of outcome functions. -/

/-- Embedding of the Rust enum ShortcutAction. -/
inductive ShortcutAction where
  | joinPrimary
  | joinTarget (id : String)
  | hangup
deriving DecidableEq, Repr

/-- Outcomes of the external shortcut facilities for each hotkey string. -/
structure ShortcutEnv where
  parse : String → Except String Unit
  os_register : String → Except String Unit
  os_unregister : String → Except String Unit

/-- Membership test of the shortcuts HashMap. -/
def assoc_contains (m : List (String × ShortcutAction)) (k : String) : Bool :=
  m.any (fun p => p.1 = k)

/-- Removal from the shortcuts HashMap. -/
def assoc_remove (m : List (String × ShortcutAction)) (k : String) :
    List (String × ShortcutAction) :=
  m.filter (fun p => p.1 ≠ k)

/-- Insertion into the shortcuts HashMap (replacing any entry for the key). -/
def assoc_insert (m : List (String × ShortcutAction)) (k : String)
    (a : ShortcutAction) : List (String × ShortcutAction) :=
  assoc_remove m k ++ [(k, a)]

/-- Embedding of GlobalShortcutService::unregister_hotkey. -/
def unregister_hotkey (env : ShortcutEnv)
    (svc : List (String × ShortcutAction)) (hotkey : String) :
    Except String (List (String × ShortcutAction)) :=
  match env.parse hotkey with
  | .error e => .error ("Invalid hotkey format: " ++ e)
  | .ok _ =>
    match env.os_unregister hotkey with
    | .error e => .error ("Failed to unregister hotkey: " ++ e)
    | .ok _ => .ok (assoc_remove svc hotkey)

/-- Embedding of GlobalShortcutService::register_hotkey: parse, unregister
an existing binding for the same string, register with the plugin, record
the binding. -/
def register_hotkey (env : ShortcutEnv)
    (svc : List (String × ShortcutAction)) (hotkey : String)
    (action : ShortcutAction) :
    Except String (List (String × ShortcutAction)) :=
  match env.parse hotkey with
  | .error e => .error ("Invalid hotkey format " ++ hotkey ++ ": " ++ e)
  | .ok _ =>
    match (if assoc_contains svc hotkey then unregister_hotkey env svc hotkey
           else .ok svc) with
    | .error e => .error e
    | .ok svc₁ =>
      match env.os_register hotkey with
      | .error e => .error ("Failed to register hotkey: " ++ e)
      | .ok _ => .ok (assoc_insert svc₁ hotkey action)

/-- Embedding of GlobalShortcutService::setup_default_hotkeys. The Rust
method applies the question-mark operator to each registration in turn. -/
def setup_default_hotkeys (env : ShortcutEnv)
    (svc : List (String × ShortcutAction)) (kb : Keybinds) :
    Except String (List (String × ShortcutAction)) :=
  match (if kb.join_primary.isEmpty then .ok svc
         else register_hotkey env svc kb.join_primary .joinPrimary) with
  | .error e => .error e
  | .ok svc₁ =>
    match (if kb.hangup.isEmpty then .ok svc₁
           else register_hotkey env svc₁ kb.hangup .hangup) with
    | .error e => .error e
    | .ok svc₂ => .ok svc₂

/-- An environment whose parser rejects exactly the string BadKey and whose
plugin calls always succeed. -/
def env0 : ShortcutEnv :=
  { parse := fun s => if s = "BadKey" then .error "unknown key" else .ok ()
    os_register := fun _ => .ok ()
    os_unregister := fun _ => .ok () }

/-- Keybinds whose joinPrimary binding fails to parse while the hangup
binding is fine. -/
def kb0 : Keybinds :=
  { join_primary := "BadKey"
    hangup := "Ctrl+Shift+H"
    target_hotkeys := []
    toggle_mute := none
    toggle_video := none }

/-- C6 counterexample: under env0 the hangup registration alone succeeds,
yet setup_default_hotkeys with keybinds kb0 returns the joinPrimary parse
error: the failure of the first registration aborts the whole setup, so the
hangup registration is never attempted and no individual reporting of the
two outcomes happens. -/
theorem setup_default_hotkeys_not_independent :
    register_hotkey env0 [] "Ctrl+Shift+H" .hangup =
      .ok [("Ctrl+Shift+H", .hangup)] ∧
    setup_default_hotkeys env0 [] kb0 =
      .error "Invalid hotkey format BadKey: unknown key" :=
  ⟨rfl, rfl⟩

/-- C6 (amended): setup_default_hotkeys registers the joinPrimary binding
then the hangup binding, skipping each empty one, but sequentially: a
failure of the joinPrimary registration is returned at once and the hangup
registration is not attempted; after a successful (or skipped) joinPrimary
step the outcome is exactly that of the hangup step. -/
theorem setup_default_hotkeys_spec (env : ShortcutEnv)
    (svc : List (String × ShortcutAction)) (kb : Keybinds) :
    (kb.join_primary.isEmpty = false →
      ∀ e, register_hotkey env svc kb.join_primary .joinPrimary = .error e →
        setup_default_hotkeys env svc kb = .error e) ∧
    (∀ svc₁,
      (if kb.join_primary.isEmpty then (.ok svc : Except String _)
       else register_hotkey env svc kb.join_primary .joinPrimary) = .ok svc₁ →
      setup_default_hotkeys env svc kb =
        (if kb.hangup.isEmpty then (.ok svc₁ : Except String _)
         else register_hotkey env svc₁ kb.hangup .hangup)) := by
  constructor
  · intro h e he
    simp [setup_default_hotkeys, h, he]
  · intro svc₁ h₁
    simp only [setup_default_hotkeys]
    rw [h₁]
    dsimp only
    cases h₂ : (if kb.hangup.isEmpty then (.ok svc₁ : Except String _)
        else register_hotkey env svc₁ kb.hangup .hangup) with
    | error e => rfl
    | ok m => rfl

/-- Keybinds with two well-formed bindings. -/
def kbGood : Keybinds :=
  { join_primary := "Ctrl+Shift+J"
    hangup := "Ctrl+Shift+H"
    target_hotkeys := []
    toggle_mute := none
    toggle_video := none }

/-- C6 witness: the amended statement evaluated under env0 at the failing
keybinds kb0 and at the succeeding keybinds kbGood. -/
theorem setup_default_hotkeys_spec_witness :
    setup_default_hotkeys env0 [] kb0 =
      .error "Invalid hotkey format BadKey: unknown key" ∧
    setup_default_hotkeys env0 [] kbGood =
      (if kbGood.hangup.isEmpty
       then (.ok [("Ctrl+Shift+J", ShortcutAction.joinPrimary)] :
          Except String _)
       else register_hotkey env0 [("Ctrl+Shift+J", ShortcutAction.joinPrimary)]
         kbGood.hangup .hangup) :=
  ⟨(setup_default_hotkeys_spec env0 [] kb0).1 rfl
      "Invalid hotkey format BadKey: unknown key" rfl,
   (setup_default_hotkeys_spec env0 [] kbGood).2
      [("Ctrl+Shift+J", ShortcutAction.joinPrimary)] rfl⟩

/-! ## SHA-256 (FIPS 180-4, as computed by the sha2 crate), on byte lists

Bytes and 32-bit words are Nat values; word arithmetic reduces modulo
2 ^ 32 explicitly. -/

/-- Right rotation of a 32-bit word. -/
def rotr32 (n x : Nat) : Nat := ((x >>> n) ||| (x <<< (32 - n))) % 4294967296

/-- Addition of 32-bit words. -/
def wadd (a b : Nat) : Nat := (a + b) % 4294967296

/-- Bitwise complement of a 32-bit word. -/
def wnot (x : Nat) : Nat := x ^^^ 4294967295

/-- The SHA-256 choose function. -/
def sha_ch (x y z : Nat) : Nat := (x &&& y) ^^^ (wnot x &&& z)

/-- The SHA-256 majority function. -/
def sha_maj (x y z : Nat) : Nat := (x &&& y) ^^^ (x &&& z) ^^^ (y &&& z)

/-- The SHA-256 big sigma-0 function. -/
def bsig0 (x : Nat) : Nat := rotr32 2 x ^^^ rotr32 13 x ^^^ rotr32 22 x

/-- The SHA-256 big sigma-1 function. -/
def bsig1 (x : Nat) : Nat := rotr32 6 x ^^^ rotr32 11 x ^^^ rotr32 25 x

/-- The SHA-256 small sigma-0 function. -/
def ssig0 (x : Nat) : Nat := rotr32 7 x ^^^ rotr32 18 x ^^^ (x >>> 3)

/-- The SHA-256 small sigma-1 function. -/
def ssig1 (x : Nat) : Nat := rotr32 17 x ^^^ rotr32 19 x ^^^ (x >>> 10)

/-- The 64 SHA-256 round constants (decimal). -/
def sha_k : List Nat :=
  [1116352408, 1899447441, 3049323471,
   3921009573, 961987163, 1508970993,
   2453635748, 2870763221, 3624381080,
   310598401, 607225278, 1426881987,
   1925078388, 2162078206, 2614888103,
   3248222580, 3835390401, 4022224774,
   264347078, 604807628, 770255983,
   1249150122, 1555081692, 1996064986,
   2554220882, 2821834349, 2952996808,
   3210313671, 3336571891, 3584528711,
   113926993, 338241895, 666307205,
   773529912, 1294757372, 1396182291,
   1695183700, 1986661051, 2177026350,
   2456956037, 2730485921, 2820302411,
   3259730800, 3345764771, 3516065817,
   3600352804, 4094571909, 275423344,
   430227734, 506948616, 659060556,
   883997877, 958139571, 1322822218,
   1537002063, 1747873779, 1955562222,
   2024104815, 2227730452, 2361852424,
   2428436474, 2756734187, 3204031479,
   3329325298]

/-- The eight 32-bit words of the SHA-256 working state. -/
structure Sha256State where
  a : Nat
  b : Nat
  c : Nat
  d : Nat
  e : Nat
  f : Nat
  g : Nat
  h : Nat

/-- The SHA-256 initial hash value (decimal). -/
def sha_init : Sha256State :=
  { a := 1779033703, b := 3144134277,
    c := 1013904242, d := 2773480762,
    e := 1359893119, f := 2600822924,
    g := 528734635, h := 1541459225 }

/-- Extend a 16-word block to the 64-word message schedule. -/
def schedule (block : List Nat) : List Nat :=
  (List.range 48).foldl
    (fun w _ =>
      w ++ [wadd (wadd (ssig1 (w.getD (w.length - 2) 0))
                       (w.getD (w.length - 7) 0))
                 (wadd (ssig0 (w.getD (w.length - 15) 0))
                       (w.getD (w.length - 16) 0))])
    block

/-- One SHA-256 compression round, consuming a round constant paired with a
schedule word. -/
def compress_step (st : Sha256State) (kw : Nat × Nat) : Sha256State :=
  let t1 := wadd st.h (wadd (bsig1 st.e)
    (wadd (sha_ch st.e st.f st.g) (wadd kw.1 kw.2)))
  let t2 := wadd (bsig0 st.a) (sha_maj st.a st.b st.c)
  { a := wadd t1 t2, b := st.a, c := st.b, d := st.c,
    e := wadd st.d t1, f := st.e, g := st.f, h := st.g }

/-- Compress one 16-word block into the running hash value. -/
def compress_block (hs : Sha256State) (block : List Nat) : Sha256State :=
  let st := (sha_k.zip (schedule block)).foldl compress_step hs
  { a := wadd hs.a st.a, b := wadd hs.b st.b, c := wadd hs.c st.c,
    d := wadd hs.d st.d, e := wadd hs.e st.e, f := wadd hs.f st.f,
    g := wadd hs.g st.g, h := wadd hs.h st.h }

/-- The message length in bits as eight big-endian bytes. -/
def len64_bytes_be (n : Nat) : List Nat :=
  [(n >>> 56) % 256, (n >>> 48) % 256, (n >>> 40) % 256, (n >>> 32) % 256,
   (n >>> 24) % 256, (n >>> 16) % 256, (n >>> 8) % 256, n % 256]

/-- SHA-256 padding: a 0x80 byte, zeros up to 56 mod 64, and the bit length
as eight big-endian bytes. -/
def sha256_pad (msg : List Nat) : List Nat :=
  msg ++ 128 :: (List.replicate ((119 - msg.length % 64) % 64) 0 ++
    len64_bytes_be (8 * msg.length))

/-- Split the padded message into 64-byte blocks. -/
def chunk64 : List Nat → List (List Nat)
  | [] => []
  | b :: rest => (b :: rest).take 64 :: chunk64 ((b :: rest).drop 64)
termination_by l => l.length
decreasing_by
  simp only [List.length_drop, List.length_cons]
  omega

/-- The sixteen big-endian 32-bit words of a 64-byte block. -/
def words_of_block (block : List Nat) : List Nat :=
  (List.range 16).map (fun i =>
    (block.getD (4 * i) 0 <<< 24) ||| (block.getD (4 * i + 1) 0 <<< 16) |||
    (block.getD (4 * i + 2) 0 <<< 8) ||| block.getD (4 * i + 3) 0)

/-- A 32-bit word as four big-endian bytes. -/
def word_bytes_be (w : Nat) : List Nat :=
  [(w >>> 24) % 256, (w >>> 16) % 256, (w >>> 8) % 256, w % 256]

/-- SHA-256 of a byte list: pad, compress each block, serialize the eight
state words big-endian. -/
def sha256 (msg : List Nat) : List Nat :=
  let st := (chunk64 (sha256_pad msg)).foldl
    (fun hs b => compress_block hs (words_of_block b)) sha_init
  word_bytes_be st.a ++ word_bytes_be st.b ++ word_bytes_be st.c ++
  word_bytes_be st.d ++ word_bytes_be st.e ++ word_bytes_be st.f ++
  word_bytes_be st.g ++ word_bytes_be st.h

/-! ## Base32 (RFC 4648, the data_encoding BASE32_NOPAD encoder) -/

/-- The RFC 4648 base32 alphabet, A-Z then 2-7. -/
def base32_upper_alphabet : List Char :=
  ['A', 'B', 'C', 'D', 'E', 'F', 'G', 'H', 'I', 'J', 'K', 'L', 'M',
   'N', 'O', 'P', 'Q', 'R', 'S', 'T', 'U', 'V', 'W', 'X', 'Y', 'Z',
   '2', '3', '4', '5', '6', '7']

/-- The same alphabet lowercased: the characters the generated codes and
room ids may contain. -/
def base32_lower_alphabet : List Char :=
  ['a', 'b', 'c', 'd', 'e', 'f', 'g', 'h', 'i', 'j', 'k', 'l', 'm',
   'n', 'o', 'p', 'q', 'r', 's', 't', 'u', 'v', 'w', 'x', 'y', 'z',
   '2', '3', '4', '5', '6', '7']

/-- The 8 bits of a byte, most significant first. -/
def byte_bits (b : Nat) : List Bool :=
  [b.testBit 7, b.testBit 6, b.testBit 5, b.testBit 4,
   b.testBit 3, b.testBit 2, b.testBit 1, b.testBit 0]

/-- Split a bit stream into 5-bit groups, the last possibly short. -/
def chunk5 : List Bool → List (List Bool)
  | [] => []
  | b :: rest => (b :: rest).take 5 :: chunk5 ((b :: rest).drop 5)
termination_by l => l.length
decreasing_by
  simp only [List.length_drop, List.length_cons]
  omega

/-- The value of a 5-bit group, most significant bit first; a short final
group is zero-padded on the right as RFC 4648 prescribes. -/
def bits_to_quintet (bits : List Bool) : Nat :=
  (bits ++ List.replicate (5 - bits.length) false).foldl
    (fun acc b => 2 * acc + (if b then 1 else 0)) 0

/-- Base32-encode a byte list without padding characters: concatenate the
bits of the bytes, split into 5-bit groups, and map each group through the
alphabet. -/
def base32_nopad_encode (bytes : List Nat) : List Char :=
  (chunk5 (bytes.map byte_bits).flatten).map
    (fun g => base32_upper_alphabet.getD (bits_to_quintet g) 'A')

/-! ## Room id derivation (src/core/room.rs) and code generation
(src/core/crypto.rs) -/

/-- The UTF-8 bytes of a string, as the Rust as_bytes view. -/
def utf8_bytes (s : String) : List Nat :=
  s.toUTF8.toList.map (fun b => b.toNat)

/-- Removal of every dash character from a string, as the Rust expression
code.replace(the dash character, the empty string). -/
def strip_dashes (s : String) : String :=
  String.mk (s.data.filter (fun c => c ≠ '-'))

/-- Embedding of room_id_from_code: strip dashes, hash the domain separator
followed by the cleaned code with SHA-256, base32-encode the digest,
lowercase it, and prefix the first 16 symbols with jc-. -/
def room_id_from_code (code : String) : String :=
  let clean_code := strip_dashes code
  let hash_result :=
    sha256 (utf8_bytes "justcall-v1|" ++ utf8_bytes clean_code)
  let encoded := (base32_nopad_encode hash_result).map Char.toLower
  String.mk ('j' :: 'c' :: '-' :: encoded.take 16)

/-- Embedding of generate_code_base32_100b: the OS random source is modeled
by the argument raw_bytes, the 16 bytes OsRng fills in. The first 20
base32 symbols of the encoded bytes are grouped in fives separated by
hyphens, exactly as the Rust format string slices code_chars. -/
def generate_code_base32_100b (raw_bytes : List Nat) : String :=
  let encoded := (base32_nopad_encode raw_bytes).map Char.toLower
  let code_chars := encoded.take 20
  String.mk
    (code_chars.take 4 ++ '-' :: ((code_chars.drop 4).take 4 ++ '-' ::
      ((code_chars.drop 8).take 4 ++ '-' :: ((code_chars.drop 12).take 4 ++
        '-' :: (code_chars.drop 16).take 4))))

/-! ### Length and alphabet lemmas -/

theorem bits_of_bytes_length (bytes : List Nat) :
    ((bytes.map byte_bits).flatten).length = 8 * bytes.length := by
  induction bytes with
  | nil => rfl
  | cons b bs ih =>
    simp only [List.map_cons, List.flatten_cons, List.length_append,
      List.length_cons, ih, byte_bits]
    simp only [List.length_cons, List.length_nil]
    omega

theorem chunk5_length (l : List Bool) :
    (chunk5 l).length = (l.length + 4) / 5 := by
  induction l using chunk5.induct with
  | case1 => simp [chunk5]
  | case2 b rest ih =>
    rw [chunk5]
    simp only [List.length_cons, List.length_take, List.length_drop] at *
    omega

theorem base32_nopad_encode_length (bytes : List Nat) :
    (base32_nopad_encode bytes).length = (8 * bytes.length + 4) / 5 := by
  rw [base32_nopad_encode, List.length_map, chunk5_length,
    bits_of_bytes_length]

theorem sha256_length (msg : List Nat) : (sha256 msg).length = 32 := by
  simp [sha256, word_bytes_be]

theorem alphabet_char_mem (i : Nat) :
    (base32_upper_alphabet.getD i 'A').toLower ∈ base32_lower_alphabet := by
  by_cases h : i < 32
  · have hall : ∀ j, j < 32 →
        (base32_upper_alphabet.getD j 'A').toLower ∈ base32_lower_alphabet :=
      by decide
    exact hall i h
  · rw [List.getD_eq_default]
    · decide
    · simp only [base32_upper_alphabet]
      simp only [List.length_cons, List.length_nil]
      omega

theorem base32_nopad_encode_lower_mem (bytes : List Nat) :
    ∀ c ∈ (base32_nopad_encode bytes).map Char.toLower,
      c ∈ base32_lower_alphabet := by
  intro c hc
  simp only [base32_nopad_encode, List.map_map, List.mem_map] at hc
  obtain ⟨g, _, rfl⟩ := hc
  exact alphabet_char_mem (bits_to_quintet g)

theorem strip_dashes_idem (s : String) :
    strip_dashes (strip_dashes s) = strip_dashes s := by
  show String.mk ((s.data.filter (fun c => c ≠ '-')).filter
      (fun c => c ≠ '-')) = String.mk (s.data.filter (fun c => c ≠ '-'))
  apply congrArg String.mk
  apply List.filter_eq_self.mpr
  intro a ha
  exact (List.mem_filter.mp ha).2

/-! ### C4: properties of room_id_from_code -/

/-- C4: room_id_from_code is deterministic, its output does not change when
every dash is stripped from the input, and for every input — including the
empty string — the output is the prefix jc- followed by exactly 16
symbols. -/
theorem room_id_from_code_spec (code : String) :
    room_id_from_code code = room_id_from_code code ∧
    room_id_from_code (strip_dashes code) = room_id_from_code code ∧
    ∃ rest : List Char,
      (room_id_from_code code).data = 'j' :: 'c' :: '-' :: rest ∧
      rest.length = 16 := by
  refine ⟨rfl, ?_, ?_⟩
  · simp only [room_id_from_code]
    rw [strip_dashes_idem]
  · refine ⟨((base32_nopad_encode (sha256 (utf8_bytes "justcall-v1|" ++
        utf8_bytes (strip_dashes code)))).map Char.toLower).take 16,
      rfl, ?_⟩
    rw [List.length_take, List.length_map, base32_nopad_encode_length,
      sha256_length]
    decide

/-! ### C9: properties of generate_code_base32_100b -/

theorem format_groups_spec (alpha : List Char) (code : List Char)
    (hlen : code.length = 20) (hmem : ∀ c ∈ code, c ∈ alpha) :
    ((code.take 4 ++ '-' :: ((code.drop 4).take 4 ++ '-' ::
      ((code.drop 8).take 4 ++ '-' :: ((code.drop 12).take 4 ++
        '-' :: (code.drop 16).take 4)))).length = 24) ∧
    (∀ i ∈ ([4, 9, 14, 19] : List Nat),
      (code.take 4 ++ '-' :: ((code.drop 4).take 4 ++ '-' ::
        ((code.drop 8).take 4 ++ '-' :: ((code.drop 12).take 4 ++
          '-' :: (code.drop 16).take 4)))).getD i ' ' = '-') ∧
    (∀ i, i < 24 → i ∉ ([4, 9, 14, 19] : List Nat) →
      (code.take 4 ++ '-' :: ((code.drop 4).take 4 ++ '-' ::
        ((code.drop 8).take 4 ++ '-' :: ((code.drop 12).take 4 ++
          '-' :: (code.drop 16).take 4)))).getD i ' ' ∈ alpha) := by
  cases code with
  | nil => simp at hlen
  | cons c0 code =>
  cases code with
  | nil => simp at hlen
  | cons c1 code =>
  cases code with
  | nil => simp at hlen
  | cons c2 code =>
  cases code with
  | nil => simp at hlen
  | cons c3 code =>
  cases code with
  | nil => simp at hlen
  | cons c4 code =>
  cases code with
  | nil => simp at hlen
  | cons c5 code =>
  cases code with
  | nil => simp at hlen
  | cons c6 code =>
  cases code with
  | nil => simp at hlen
  | cons c7 code =>
  cases code with
  | nil => simp at hlen
  | cons c8 code =>
  cases code with
  | nil => simp at hlen
  | cons c9 code =>
  cases code with
  | nil => simp at hlen
  | cons c10 code =>
  cases code with
  | nil => simp at hlen
  | cons c11 code =>
  cases code with
  | nil => simp at hlen
  | cons c12 code =>
  cases code with
  | nil => simp at hlen
  | cons c13 code =>
  cases code with
  | nil => simp at hlen
  | cons c14 code =>
  cases code with
  | nil => simp at hlen
  | cons c15 code =>
  cases code with
  | nil => simp at hlen
  | cons c16 code =>
  cases code with
  | nil => simp at hlen
  | cons c17 code =>
  cases code with
  | nil => simp at hlen
  | cons c18 code =>
  cases code with
  | nil => simp at hlen
  | cons c19 code =>
  cases code with
  | cons c20 code =>
    simp only [List.length_cons] at hlen
    omega
  | nil =>
  refine ⟨rfl, ?_, ?_⟩
  · intro i hi
    fin_cases hi <;> rfl
  · intro i hi hnot
    interval_cases i <;>
      first
      | exact absurd (by decide) hnot
      | exact hmem c0 (by simp)
      | exact hmem c1 (by simp)
      | exact hmem c2 (by simp)
      | exact hmem c3 (by simp)
      | exact hmem c4 (by simp)
      | exact hmem c5 (by simp)
      | exact hmem c6 (by simp)
      | exact hmem c7 (by simp)
      | exact hmem c8 (by simp)
      | exact hmem c9 (by simp)
      | exact hmem c10 (by simp)
      | exact hmem c11 (by simp)
      | exact hmem c12 (by simp)
      | exact hmem c13 (by simp)
      | exact hmem c14 (by simp)
      | exact hmem c15 (by simp)
      | exact hmem c16 (by simp)
      | exact hmem c17 (by simp)
      | exact hmem c18 (by simp)
      | exact hmem c19 (by simp)

/-- C9: for every 16-byte random input, the generated code is exactly 24
characters, carries hyphens exactly at 0-indexed positions 4, 9, 14 and 19,
and every character at the other 20 positions belongs to the 32-symbol
alphabet of lowercase letters and the digits 2-7. -/
theorem generate_code_spec (raw_bytes : List Nat)
    (hlen : raw_bytes.length = 16) :
    (generate_code_base32_100b raw_bytes).data.length = 24 ∧
    (∀ i ∈ ([4, 9, 14, 19] : List Nat),
      (generate_code_base32_100b raw_bytes).data.getD i ' ' = '-') ∧
    (∀ i, i < 24 → i ∉ ([4, 9, 14, 19] : List Nat) →
      (generate_code_base32_100b raw_bytes).data.getD i ' ' ∈
        base32_lower_alphabet) := by
  have hcode_len :
      (((base32_nopad_encode raw_bytes).map Char.toLower).take 20).length
        = 20 := by
    rw [List.length_take, List.length_map, base32_nopad_encode_length, hlen]
    decide
  have hcode_mem : ∀ c ∈ ((base32_nopad_encode raw_bytes).map
      Char.toLower).take 20, c ∈ base32_lower_alphabet := fun c hc =>
    base32_nopad_encode_lower_mem raw_bytes c (List.mem_of_mem_take hc)
  exact format_groups_spec base32_lower_alphabet _ hcode_len hcode_mem

/-- C9 witness: the statement evaluated on sixteen zero bytes. -/
theorem generate_code_spec_witness :
    (List.replicate 16 0).length = 16 ∧
    (generate_code_base32_100b (List.replicate 16 0)).data.length = 24 ∧
    (generate_code_base32_100b (List.replicate 16 0)).data.getD 4 ' '
      = '-' :=
  ⟨by decide,
   (generate_code_spec (List.replicate 16 0) (by decide)).1,
   (generate_code_spec (List.replicate 16 0) (by decide)).2.1 4 (by decide)⟩

end JustCall
